import Mathlib

/-!
# Verification of the comfy-buildkit build-plan assembler

A shallow embedding of `src/comfy_buildkit/__init__.py` (the second, current
copy of the module, lines 483-953): the download-operation variants, the
content hash that names download stages, the fluent builder state, and the
Dockerfile assembler.  Pure string-building logic is translated directly;
filesystem effects (the build-context temp directory) are modelled
explicitly where a claim depends on them, and the one network call
(Civitai file-name resolution) is modelled as an explicit parameter.
-/

set_option maxRecDepth 200000

/-! ## Python string and path primitives -/

/-- The apostrophe character. -/
def squote : Char := Char.ofNat 39

/-- The double-quote character. -/
def dquote : Char := Char.ofNat 34

/-- Python `sep.join(parts)`. -/
def joinSep (sep : String) : List String → String
  | [] => ""
  | [x] => x
  | x :: y :: rest => x ++ sep ++ joinSep sep (y :: rest)

/-- Python `s.startswith('/')`: the first character is a slash. -/
def startsWithSlash (s : String) : Bool := s.data.head? = some '/'

/-- Whether the last character is a slash (used by `os.path.join`). -/
def endsWithSlash (s : String) : Bool := s.data.getLast? = some '/'

/-- Python `os.path.join(a, b)` for POSIX paths and two components: an
absolute `b` replaces `a`; otherwise `b` is appended, inserting a slash
unless `a` is empty or already ends with one. -/
def osPathJoin (a b : String) : String :=
  if startsWithSlash b then b
  else if a = "" ∨ endsWithSlash a then a ++ b
  else a ++ "/" ++ b

/-- Remove trailing slashes (the `rstrip('/')` step of `posixpath.split`). -/
def rstripSlash : List Char → List Char
  | [] => []
  | a :: t =>
    match rstripSlash t with
    | [] => if a = '/' then [] else [a]
    | r => a :: r

/-- Python `os.path.dirname(p)` for POSIX paths: everything up to and
including the last slash, with trailing slashes stripped unless the head is
slashes only; the empty string when there is no slash. -/
def osPathDirname (p : String) : String :=
  let head := (p.data.reverse.dropWhile (fun c => c != '/')).reverse
  if head ≠ [] ∧ ¬ head.all (fun c => c == '/') then ⟨rstripSlash head⟩ else ⟨head⟩

/-- Python `os.path.basename(p)` for POSIX paths: everything after the last
slash. -/
def osPathBasename (p : String) : String :=
  ⟨(p.data.reverse.takeWhile (fun c => c != '/')).reverse⟩

/-- Escape one character for Python `repr` of a string quoted with `q`. -/
def pyReprCharIn (q c : Char) : List Char :=
  if c = '\\' then ['\\', '\\'] else if c = q then ['\\', q] else [c]

/-- Python `repr` of a `str` holding printable characters: single-quoted,
except that a string containing an apostrophe and no double quote is
double-quoted; the quote character and backslashes are escaped. -/
def pyStrRepr (s : String) : String :=
  let q := if s.data.contains squote && ! s.data.contains dquote then dquote else squote
  ⟨q :: (s.data.flatMap (pyReprCharIn q) ++ [q])⟩

/-- Python `repr` of an `Optional[str]`. -/
def pyReprOptStr : Option String → String
  | none => "None"
  | some s => pyStrRepr s

/-- Python `repr` of an `Optional[List[str]]`. -/
def pyReprOptList : Option (List String) → String
  | none => "None"
  | some l => "[" ++ joinSep ", " (l.map pyStrRepr) ++ "]"

/-- Python `str` of a `dict` whose values are already rendered. -/
def pyDictStr (entries : List (String × String)) : String :=
  "\x7b" ++ joinSep ", " (entries.map (fun e => pyStrRepr e.1 ++ ": " ++ e.2)) ++ "\x7d"

/-- Split a character list at every character satisfying `p`, keeping empty
segments (the behavior of Python `str.split` with an explicit separator). -/
def splitOnP (p : Char → Bool) : List Char → List (List Char)
  | [] => [[]]
  | a :: t =>
    if p a then [] :: splitOnP p t
    else
      match splitOnP p t with
      | h :: r => (a :: h) :: r
      | [] => [[a]]

/-- Python `s.split('/')` on character lists. -/
def splitOnChar (c : Char) : List Char → List (List Char) :=
  splitOnP (fun a => a == c)

/-- The final segment of `url.split('/')`. -/
def lastSegment (url : String) : String := ⟨(splitOnChar '/' url.data).getLastD []⟩

/-- Whether `pat` occurs as a contiguous sublist. -/
def containsSub (pat : List Char) : List Char → Bool
  | [] => pat.isPrefixOf []
  | a :: t => pat.isPrefixOf (a :: t) || containsSub pat t

/-- Fuel-bounded scanner behind `pyReplace`: replace occurrences of `pat`
left to right, non-overlapping. -/
def replaceAllAux (pat rep : List Char) : Nat → List Char → List Char
  | 0, l => l
  | _ + 1, [] => []
  | fuel + 1, a :: t =>
    if pat.isPrefixOf (a :: t) then rep ++ replaceAllAux pat rep fuel ((a :: t).drop pat.length)
    else a :: replaceAllAux pat rep fuel t

/-- Python `s.replace(pat, rep)` for a non-empty pattern: every occurrence,
scanned left to right, is replaced. -/
def pyReplace (s pat rep : String) : String :=
  ⟨replaceAllAux pat.data rep.data s.data.length s.data⟩

/-- Model of `shlex.split` restricted to inputs without quote or escape
characters (the only inputs the builder passes to it): split on runs of
whitespace. -/
def shlexSplitSimple (s : String) : List String :=
  ((splitOnP Char.isWhitespace s.data).map (fun w => String.mk w)).filter (fun w => w != "")

/-! ## MD5 digest (`hashlib.md5(...).hexdigest()`) over `Nat` -/

/-- 2^32, the modulus for 32-bit arithmetic in the digest. -/
def m32 : Nat := 4294967296

/-- Bitwise complement within 32 bits. -/
def not32 (x : Nat) : Nat := Nat.xor x 4294967295

/-- Left-rotation of a 32-bit value. -/
def rotl32 (x n : Nat) : Nat := ((x <<< n) ||| (x >>> (32 - n))) % m32

/-- Per-round left-rotation amounts of the digest. -/
def md5S : List Nat :=
  [7, 12, 17, 22, 7, 12, 17, 22, 7, 12, 17, 22, 7, 12, 17, 22,
   5, 9, 14, 20, 5, 9, 14, 20, 5, 9, 14, 20, 5, 9, 14, 20,
   4, 11, 16, 23, 4, 11, 16, 23, 4, 11, 16, 23, 4, 11, 16, 23,
   6, 10, 15, 21, 6, 10, 15, 21, 6, 10, 15, 21, 6, 10, 15, 21]

/-- Per-round additive constants of the digest. -/
def md5K : List Nat :=
  [3614090360, 3905402710, 606105819, 3250441966, 4118548399, 1200080426, 2821735955, 4249261313,
   1770035416, 2336552879, 4294925233, 2304563134, 1804603682, 4254626195, 2792965006, 1236535329,
   4129170786, 3225465664, 643717713, 3921069994, 3593408605, 38016083, 3634488961, 3889429448,
   568446438, 3275163606, 4107603335, 1163531501, 2850285829, 4243563512, 1735328473, 2368359562,
   4294588738, 2272392833, 1839030562, 4259657740, 2763975236, 1272893353, 4139469664, 3200236656,
   681279174, 3936430074, 3572445317, 76029189, 3654602809, 3873151461, 530742520, 3299628645,
   4096336452, 1126891415, 2878612391, 4237533241, 1700485571, 2399980690, 4293915773, 2240044497,
   1873313359, 4264355552, 2734768916, 1309151649, 4149444226, 3174756917, 718787259, 3951481745]

/-- Little-endian 32-bit word from four bytes. -/
def toLE32 (b0 b1 b2 b3 : Nat) : Nat := b0 + 256 * b1 + 65536 * b2 + 16777216 * b3

/-- The four little-endian bytes of a 32-bit value. -/
def le32Bytes (x : Nat) : List Nat :=
  [x % 256, x / 256 % 256, x / 65536 % 256, x / 16777216 % 256]

/-- The eight little-endian bytes of a 64-bit value. -/
def le64Bytes (x : Nat) : List Nat :=
  le32Bytes (x % m32) ++ le32Bytes (x / m32 % m32)

/-- Group a 64-byte block into sixteen little-endian words. -/
def chunkWords : List Nat → List Nat
  | b0 :: b1 :: b2 :: b3 :: rest => toLE32 b0 b1 b2 b3 :: chunkWords rest
  | _ => []

/-- One round of the digest's compression function. -/
def md5Round (M : List Nat) (st : Nat × Nat × Nat × Nat) (i : Nat) : Nat × Nat × Nat × Nat :=
  let A := st.1; let B := st.2.1; let C := st.2.2.1; let D := st.2.2.2
  let F :=
    if i < 16 then (B &&& C) ||| (not32 B &&& D)
    else if i < 32 then (D &&& B) ||| (not32 D &&& C)
    else if i < 48 then Nat.xor (Nat.xor B C) D
    else Nat.xor C (B ||| not32 D)
  let g :=
    if i < 16 then i
    else if i < 32 then (5 * i + 1) % 16
    else if i < 48 then (3 * i + 5) % 16
    else (7 * i) % 16
  let Fv := (F + A + md5K.getD i 0 + M.getD g 0) % m32
  (D, (B + rotl32 Fv (md5S.getD i 0)) % m32, B, C)

/-- Process one 64-byte chunk, updating the running state. -/
def md5Chunk (st : Nat × Nat × Nat × Nat) (chunk : List Nat) : Nat × Nat × Nat × Nat :=
  let M := chunkWords chunk
  let r := (List.range 64).foldl (md5Round M) st
  ((st.1 + r.1) % m32, (st.2.1 + r.2.1) % m32, (st.2.2.1 + r.2.2.1) % m32,
   (st.2.2.2 + r.2.2.2) % m32)

/-- Split a byte list into 64-byte chunks (structural recursion on a fuel
bound so the definition reduces inside the kernel). -/
def chunks64Aux : Nat → List Nat → List (List Nat)
  | 0, _ => []
  | _, [] => []
  | fuel + 1, a :: t => (a :: t).take 64 :: chunks64Aux fuel (t.drop 63)

/-- Split a byte list into 64-byte chunks. -/
def chunks64 (l : List Nat) : List (List Nat) := chunks64Aux l.length l

/-- Append the digest padding: a 0x80 byte, zero bytes until the length is
56 mod 64, then the 64-bit bit length little-endian. -/
def md5Pad (msg : List Nat) : List Nat :=
  let l := msg.length
  msg ++ (128 :: List.replicate ((119 - l % 64) % 64) 0) ++ le64Bytes ((l * 8) % (m32 * m32))

/-- The 16 digest bytes of a byte list. -/
def md5Bytes (msg : List Nat) : List Nat :=
  let st := (chunks64 (md5Pad msg)).foldl md5Chunk
    (1732584193, 4023233417, 2562383102, 271733878)
  le32Bytes st.1 ++ le32Bytes st.2.1 ++ le32Bytes st.2.2.1 ++ le32Bytes st.2.2.2

/-- Lowercase hexadecimal digit of a value (taken mod 16). -/
def hexChar (n : Nat) : Char := "0123456789abcdef".data.getD (n % 16) '0'

/-- Two lowercase hexadecimal digits of a byte. -/
def byteHexChars (b : Nat) : List Char := [hexChar (b / 16), hexChar (b % 16)]

/-- UTF-8 encoding of a single code point. -/
def utf8EncodeChar (c : Char) : List Nat :=
  let n := c.toNat
  if n < 128 then [n]
  else if n < 2048 then [192 + n / 64, 128 + n % 64]
  else if n < 65536 then [224 + n / 4096, 128 + n / 64 % 64, 128 + n % 64]
  else [240 + n / 262144, 128 + n / 4096 % 64, 128 + n / 64 % 64, 128 + n % 64]

/-- UTF-8 bytes of a string (the Python `str.encode()` of the hashed text). -/
def utf8Bytes (s : String) : List Nat := s.data.flatMap utf8EncodeChar

/-- Lowercase hex digest characters of a string,
`hashlib.md5(s.encode()).hexdigest()`. -/
def md5HexChars (s : String) : List Char := (md5Bytes (utf8Bytes s)).flatMap byteHexChars

/-! ## Download operations

Each variant stores its fields already resolved by `__init__`, in the
order Python assigns them (the order `str(op.__dict__)` renders them). -/

/-- The four download-operation variants with their resolved fields. -/
inductive DownloadOperation where
  | hfFile (repo_id filename local_path : String) (revision token : Option String)
  | hfSnapshot (repo_id local_dir : String) (revision : Option String)
      (ignore_patterns : Option (List String)) (token : Option String)
  | urlDl (url local_path : String)
  | civitaiOp (model_id local_dir : String) (token model_name : Option String)
      (file_name local_path : String)
deriving DecidableEq, Repr

/-- `HFFileDownload.__init__`: a relative `local_path` is qualified under
`/comfyui/models`. -/
def HFFileDownload (repo_id filename local_path : String)
    (revision token : Option String) : DownloadOperation :=
  .hfFile repo_id filename
    (if startsWithSlash local_path then local_path else osPathJoin "/comfyui/models" local_path)
    revision token

/-- `HFSnapshotDownload.__init__`: a relative `local_dir` is qualified under
`/comfy/models`. -/
def HFSnapshotDownload (repo_id local_dir : String) (revision : Option String)
    (ignore_patterns : Option (List String)) (token : Option String) : DownloadOperation :=
  .hfSnapshot repo_id
    (if startsWithSlash local_dir then local_dir else osPathJoin "/comfy/models" local_dir)
    revision ignore_patterns token

/-- `URLDownload.__init__`: a relative `local_path` is qualified under
`/comfy/models`. -/
def URLDownload (url local_path : String) : DownloadOperation :=
  .urlDl url
    (if startsWithSlash local_path then local_path else osPathJoin "/comfy/models" local_path)

/-- `CivitaiDownload._get_file_name` with the network branch abstracted:
a non-empty explicit `model_name` is used as is; otherwise the name the
HEAD-request resolution returned, supplied here as `fetched_name`. -/
def civitaiResolvedName (model_name : Option String) (fetched_name : String) : String :=
  match model_name with
  | some n => if n = "" then fetched_name else n
  | none => fetched_name

/-- `CivitaiDownload.__init__`: the directory of `local_path` (qualified
under `/comfyui/models` when relative) joined with the resolved file name.
`fetched_name` stands for the network-resolved name (see
`civitaiResolvedName`). -/
def CivitaiDownload (model_id local_path : String) (token model_name : Option String)
    (fetched_name : String) : DownloadOperation :=
  let local_dir :=
    if startsWithSlash local_path then osPathDirname local_path
    else osPathJoin "/comfyui/models" (osPathDirname local_path)
  let file_name := civitaiResolvedName model_name fetched_name
  .civitaiOp model_id local_dir token model_name file_name (osPathJoin local_dir file_name)

/-- `get_output_path` of each variant. -/
def get_output_path : DownloadOperation → String
  | .hfFile _ _ local_path _ _ => local_path
  | .hfSnapshot _ local_dir _ _ _ => local_dir
  | .urlDl _ local_path => local_path
  | .civitaiOp _ _ _ _ _ local_path => local_path

/-- The `, revision='...'` fragment, omitted when the field is `None` or
empty (Python truthiness). -/
def optArgPart (key : String) : Option String → String
  | some v => if v = "" then "" else ", " ++ key ++ "='" ++ v ++ "'"
  | none => ""

/-- The `, ignore_patterns=[...]` fragment, omitted when the field is
`None` or the empty list (Python truthiness). -/
def ignorePatternsPart : Option (List String) → String
  | some ps =>
    if ps.isEmpty then ""
    else ", ignore_patterns=[" ++ joinSep ", " (ps.map (fun p => "'" ++ p ++ "'")) ++ "]"
  | none => ""

/-- `get_dockerfile_commands` of each variant. -/
def get_dockerfile_commands : DownloadOperation → List String
  | .hfFile repo_id filename local_path revision token =>
    ["RUN python -c \"from huggingface_hub import hf_hub_download; hf_hub_download(repo_id='"
      ++ repo_id ++ "', filename='" ++ filename ++ "', local_dir='" ++ osPathDirname local_path
      ++ "'" ++ optArgPart "revision" revision ++ optArgPart "token" token ++ ")\""]
  | .hfSnapshot repo_id local_dir revision ignore_patterns token =>
    ["RUN python -c \"from huggingface_hub import snapshot_download; snapshot_download(repo_id='"
      ++ repo_id ++ "', local_dir='" ++ local_dir ++ "'" ++ optArgPart "revision" revision
      ++ ignorePatternsPart ignore_patterns ++ optArgPart "token" token ++ ")\""]
  | .urlDl url local_path => ["ADD " ++ url ++ " " ++ local_path]
  | .civitaiOp model_id local_dir token _ _ local_path =>
    let download_url := "https://civitai.com/api/download/models/" ++ model_id ++
      (match token with | some t => if t = "" then "" else "?token=" ++ t | none => "")
    ["RUN mkdir -p " ++ local_dir,
     "RUN wget -O " ++ local_path ++ " '" ++ download_url ++
       "' || (echo 'Failed to download model " ++ model_id ++ "' && exit 1)"]

/-- `str(operation.__dict__)`: the Python rendering of the operation's
resolved fields in assignment order. -/
def opDictStr : DownloadOperation → String
  | .hfFile repo_id filename local_path revision token =>
    pyDictStr [("repo_id", pyStrRepr repo_id), ("filename", pyStrRepr filename),
      ("local_path", pyStrRepr local_path), ("revision", pyReprOptStr revision),
      ("token", pyReprOptStr token)]
  | .hfSnapshot repo_id local_dir revision ignore_patterns token =>
    pyDictStr [("repo_id", pyStrRepr repo_id), ("local_dir", pyStrRepr local_dir),
      ("revision", pyReprOptStr revision), ("ignore_patterns", pyReprOptList ignore_patterns),
      ("token", pyReprOptStr token)]
  | .urlDl url local_path =>
    pyDictStr [("url", pyStrRepr url), ("local_path", pyStrRepr local_path)]
  | .civitaiOp model_id local_dir token model_name file_name local_path =>
    pyDictStr [("model_id", pyStrRepr model_id), ("local_dir", pyStrRepr local_dir),
      ("token", pyReprOptStr token), ("model_name", pyReprOptStr model_name),
      ("file_name", pyStrRepr file_name), ("local_path", pyStrRepr local_path)]

/-- `hashlib.md5(str(operation.__dict__).encode()).hexdigest()[:8]`. -/
def operationHash (op : DownloadOperation) : List Char := (md5HexChars (opDictStr op)).take 8

/-- The content-addressed download-stage name `download_<hash>`. -/
def stageName (op : DownloadOperation) : String := ⟨"download_".data ++ operationHash op⟩

/-! ## The builder state and its methods -/

/-- The `ComfyBuildkit` plan fields that determine descriptor text.  The
repository/revision configuration fields only feed payload JSON files, and
`temp_dir`/`project_root` are filesystem handles; they are omitted from the
state and modelled explicitly where a claim needs them. -/
structure ComfyBuildkit where
  base_image : String
  python_version : String
  custom_nodes : List (String × String)
  system_stage : List String
  user_stage : List String
  download_operations : List DownloadOperation
deriving DecidableEq, Repr

/-- A freshly constructed plan with the constructor's defaults. -/
def initialKit : ComfyBuildkit :=
  { base_image := "ubuntu:22.04", python_version := "3.11", custom_nodes := [],
    system_stage := [], user_stage := [], download_operations := [] }

/-- `ComfyBuildkit.run`: append a user `RUN` instruction. -/
def ComfyBuildkit.run (p : ComfyBuildkit) (command : String) : ComfyBuildkit :=
  { p with user_stage := p.user_stage ++ ["RUN " ++ command] }

/-- `ComfyBuildkit.cmd` on a string argument: the whole string becomes the
single element of the JSON-array form, unsplit. -/
def ComfyBuildkit.cmd (p : ComfyBuildkit) (command : String) : ComfyBuildkit :=
  { p with user_stage := p.user_stage ++ ["CMD [\"" ++ command ++ "\"]"] }

/-- `ComfyBuildkit._cmd` on a string argument: the string is word-split with
`shlex.split` and each word is quoted separately. -/
def sysCmdLine (command : String) : String :=
  "CMD [" ++ joinSep ", " ((shlexSplitSimple command).map (fun w => "\"" ++ w ++ "\"")) ++ "]"

/-- One `custom_nodes` entry of the dependency-declaration input:
`state` and `hash` keys, each possibly absent. -/
structure NodeInfo where
  state : Option String
  hash : Option String
deriving DecidableEq, Repr

/-- Revision normalization of `custom_node_from_depends`: the entry's hash,
with a missing hash treated as `"-"`, and `"-"` or the empty string
replaced by `"main"`. -/
def normalizeRevision (hash : Option String) : String :=
  let revision := hash.getD "-"
  if revision = "-" ∨ revision = "" then "main" else revision

/-- `ComfyBuildkit.custom_node_from_depends`: iterate the declared
`custom_nodes` entries in input order, appending `(url, revision)` for each
entry whose `state` is `"installed"`. -/
def ComfyBuildkit.custom_node_from_depends (p : ComfyBuildkit)
    (depends : List (String × NodeInfo)) : ComfyBuildkit :=
  depends.foldl
    (fun acc e =>
      if e.2.state = some "installed" then
        { acc with custom_nodes := acc.custom_nodes ++ [(e.1, normalizeRevision e.2.hash)] }
      else acc)
    p

/-- The imported add-on of one entry, when its state is `"installed"`
(the claim-side characterization of the loop body). -/
def importedNode (e : String × NodeInfo) : Option (String × String) :=
  if e.2.state = some "installed" then some (e.1, normalizeRevision e.2.hash) else none

/-- One record of the `20-install-nodes.json` payload. -/
structure NodeRecord where
  url : String
  hash : String
  repo_name : String
deriving DecidableEq, Repr

/-- `url.split('/')[-1].replace('.git', '')` as computed by
`_install_custom_nodes`. -/
def repoNameOf (url : String) : String := pyReplace (lastSegment url) ".git" ""

/-- The `node_install_data` payload of `_install_custom_nodes`: one
`{url, hash, repo_name}` record per declared add-on, in order. -/
def node_install_data (nodes : List (String × String)) : List NodeRecord :=
  nodes.map (fun e => ⟨e.1, e.2, repoNameOf e.1⟩)

/-- Errors of `ComfyBuildkit.copy`. -/
inductive CopyError where
  | tooFewArgs
  | missingSource (source : String)
deriving DecidableEq, Repr

/-- `ComfyBuildkit.copy`: reject calls with fewer than one source plus one
destination, then check each source against the project root (modelled by
the list `fs` of existing files), raising on the first missing one; only
then append the `COPY` instruction over the sources' basenames. -/
def ComfyBuildkit.copy (fs : List String) (p : ComfyBuildkit) (args : List String) :
    Except CopyError ComfyBuildkit :=
  if args.length < 2 then .error .tooFewArgs
  else
    let sources := args.dropLast
    let dest := args.getLastD ""
    match sources.find? (fun s => ! fs.contains s) with
    | some s => .error (.missingSource s)
    | none =>
      .ok { p with user_stage := p.user_stage ++
        ["COPY " ++ joinSep " " (sources.map osPathBasename) ++ " " ++ dest] }

/-! ## The assembler -/

/-- The three fixed `ENV` lines of the system stage. -/
def envLines : List String :=
  ["ENV DEBIAN_FRONTEND=noninteractive", "ENV PIP_PREFER_BINARY=1", "ENV PYTHONUNBUFFERED=1"]

/-- The OS-prerequisite install instruction of the system stage. -/
def aptLine (python_version : String) : String :=
  "RUN apt-get update && apt-get install -y python" ++ python_version ++
    " python3-pip python-is-python3 wget git libgl1-mesa-glx libglib2.0-0 libsm6 libxrender1 libxext6 ffmpeg && apt-get clean && rm -rf /var/lib/apt/lists/*"

/-- Instructions appended by `_install_comfyui`. -/
def installComfyLines : List String :=
  ["COPY 10-install-comfy.json 10-install-comfy.json",
   "COPY 10-install-comfy.py /10-install-comfy.py",
   "RUN python3 /10-install-comfy.py"]

/-- Instructions appended by `_install_custom_nodes`. -/
def installNodesLines : List String :=
  ["COPY 20-install-nodes.json 20-install-nodes.json",
   "COPY 20-install-nodes.py /20-install-nodes.py",
   "RUN python3 /20-install-nodes.py"]

/-- The system-stage instruction list rebuilt by
`generate_base_dockerfile`. -/
def systemStageLines (p : ComfyBuildkit) : List String :=
  ["FROM " ++ p.base_image ++ " AS system_stage"] ++ envLines ++
    [aptLine p.python_version, "RUN pip install uv"] ++ installComfyLines ++
    (if p.custom_nodes.isEmpty then [] else installNodesLines) ++
    [sysCmdLine "python /comfyui/main.py --listen 0.0.0.0"]

/-- `generate_base_dockerfile`: reset `system_stage` to the freshly built
instruction list and return its text, instructions separated by blank
lines. -/
def generate_base_dockerfile (p : ComfyBuildkit) : String × ComfyBuildkit :=
  let sys := systemStageLines p
  (joinSep "\n\n" sys ++ "\n", { p with system_stage := sys })

/-- The lines one download operation contributes: its `FROM system_stage AS
download_<hash>` header followed by its instructions. -/
def downloadBlock (op : DownloadOperation) : List String :=
  ("FROM system_stage AS " ++ stageName op) :: get_dockerfile_commands op

/-- The instruction lines of the download section: empty when no operation
is declared, otherwise the `huggingface_hub` install line followed by each
operation's block. -/
def downloadLines (p : ComfyBuildkit) : List String :=
  if p.download_operations.isEmpty then []
  else "RUN pip install huggingface_hub" :: p.download_operations.flatMap downloadBlock

/-- `generate_download_dockerfile`: the download section's lines joined by
newlines, plus a trailing newline. -/
def generate_download_dockerfile (p : ComfyBuildkit) : String :=
  joinSep "\n" (downloadLines p) ++ "\n"

/-- `generate_user_dockerfile`. -/
def generate_user_dockerfile (p : ComfyBuildkit) : String :=
  joinSep "\n" p.user_stage ++ "\n"

/-- One `COPY --from=<stage> <out> <out>` line of the final stage. -/
def finalCopyLine (op : DownloadOperation) : String :=
  "COPY --from=" ++ stageName op ++ " " ++ get_output_path op ++ " " ++ get_output_path op

/-- The final stage's copy lines, one per declared operation in declaration
order. -/
def finalCopyLines (p : ComfyBuildkit) : List String :=
  p.download_operations.map finalCopyLine

/-- The final stage's text: its `FROM` header plus every copy line. -/
def finalStageText (p : ComfyBuildkit) : String :=
  "FROM user_stage AS final_stage\n" ++ String.join ((finalCopyLines p).map (fun l => l ++ "\n"))

/-- `generate_dockerfile`: the four stage sections joined by newlines, in
the order system, download stages, user, final. -/
def generate_dockerfile (p : ComfyBuildkit) : String × ComfyBuildkit :=
  let base := generate_base_dockerfile p
  (joinSep "\n"
    [base.1, generate_download_dockerfile p,
     "FROM system_stage AS user_stage\n" ++ generate_user_dockerfile p,
     finalStageText p],
   base.2)

/-- `copy` followed by persisting the descriptor: the descriptor text is
produced only when `copy` succeeded, so a raising `copy` writes nothing. -/
def copy_then_save (fs : List String) (p : ComfyBuildkit) (args : List String) : Option String :=
  match ComfyBuildkit.copy fs p args with
  | .error _ => none
  | .ok p2 => some (generate_dockerfile p2).1

/-! ## Claim-side auxiliary definitions -/

/-- The stage name a `COPY --from=<stage> ...` line targets, read back from
the emitted line text. -/
def extractFromTarget (line : String) : Option String :=
  if "COPY --from=".data.isPrefixOf line.data then
    some ⟨(line.data.drop 12).takeWhile (fun c => c != ' ')⟩
  else none

/-- The stage names the final stage's copy lines target. -/
def finalCopyTargets (p : ComfyBuildkit) : List String :=
  (finalCopyLines p).filterMap extractFromTarget

/-- The download-stage names introduced by the download section. -/
def downloadStageNames (p : ComfyBuildkit) : List String :=
  p.download_operations.map stageName

/-- The download section grouped into per-operation stages. -/
def downloadBlocks (p : ComfyBuildkit) : List (List String) :=
  p.download_operations.map downloadBlock

/-- The claim's reading of `repo_name` derivation: strip one trailing
`.git` suffix and nothing else. -/
def stripTrailingGit (s : String) : String :=
  if ".git".data.isSuffixOf s.data then ⟨s.data.take (s.data.length - 4)⟩ else s

/-! ## Concrete example data used in the claim instances -/

/-- A plan with two independently constructed, field-identical remote-file
downloads at positions 0 and 2. -/
def dupPlan : ComfyBuildkit :=
  { initialKit with download_operations :=
      [HFFileDownload "org/repo" "model.safetensors" "checkpoints/model.safetensors" none none,
       URLDownload "http://example.com/model.bin" "checkpoints/m.bin",
       HFFileDownload "org/repo" "model.safetensors" "checkpoints/model.safetensors" none none] }

/-- The direct-URL operation of the worked example. -/
def exampleUrlOp : DownloadOperation :=
  URLDownload "http://example.com/model.bin" "checkpoints/m.bin"

/-- A plan with a single direct-URL download. -/
def urlPlan : ComfyBuildkit := { initialKit with download_operations := [exampleUrlOp] }

/-- The marketplace-model operation refuting the verbatim-path reading: an
absolute destination whose file part is replaced by the resolved name. -/
def civitaiCounterOp : DownloadOperation :=
  CivitaiDownload "123" "/models/x.bin" none (some "y.bin") "unused"

/-- The dependency-declaration input of the round-trip scenario. -/
def exampleDepends : List (String × NodeInfo) :=
  [("https://x/a", { state := some "installed", hash := some "-" }),
   ("https://x/b", { state := some "not-installed", hash := some "deadbeef" })]

/-- The build-context contents for the copy-error scenario: one existing
file. -/
def exampleFs : List String := ["exists.txt"]

/-! ## General lemmas about the string primitives -/

theorem str_data_append (a b : String) : (a ++ b).data = a.data ++ b.data := rfl

theorem str_ext {a b : String} (h : a.data = b.data) : a = b := by
  cases a; cases b; exact congrArg String.mk h

theorem c6_import_spec (p : ComfyBuildkit) (entries : List (String × NodeInfo)) :
    (ComfyBuildkit.custom_node_from_depends p entries).custom_nodes
      = p.custom_nodes ++ entries.filterMap importedNode := by
  induction entries generalizing p with
  | nil => simp [ComfyBuildkit.custom_node_from_depends]
  | cons e t ih =>
    by_cases h : e.2.state = some "installed"
    · simp only [ComfyBuildkit.custom_node_from_depends, List.foldl_cons, if_pos h] at *
      rw [ih, List.filterMap_cons]
      simp [importedNode, if_pos h, List.append_assoc]
    · simp only [ComfyBuildkit.custom_node_from_depends, List.foldl_cons, if_neg h] at *
      rw [ih, List.filterMap_cons]
      simp [importedNode, if_neg h]

/-! ## Claim theorems -/

/-- C2: assembly is idempotent on an unmutated plan — for every plan state,
invoking `generate_dockerfile` a second time, on the state the first
invocation returned, yields byte-identical descriptor text. -/
theorem c2_assemble_idempotent (p : ComfyBuildkit) :
    (generate_dockerfile (generate_dockerfile p).2).1 = (generate_dockerfile p).1 := rfl

/-- C5: a direct-URL download of `http://example.com/model.bin` to the
relative path `checkpoints/m.bin` resolves its output path to
`/comfy/models/checkpoints/m.bin` and generates exactly one `ADD`
instruction using that resolved path. -/
theorem c5_url_download_example :
    get_output_path (URLDownload "http://example.com/model.bin" "checkpoints/m.bin") =
      "/comfy/models/checkpoints/m.bin" ∧
    get_dockerfile_commands (URLDownload "http://example.com/model.bin" "checkpoints/m.bin") =
      ["ADD http://example.com/model.bin /comfy/models/checkpoints/m.bin"] :=
  ⟨rfl, rfl⟩

/-- C6: `custom_node_from_depends` imports exactly the entries whose state
is `"installed"`, in input order, normalizing a `"-"`, empty or missing
hash to `"main"`; on the round-trip example only `https://x/a` is imported,
with revision `main`. -/
theorem c6_depends_import (p : ComfyBuildkit) (entries : List (String × NodeInfo)) :
    (ComfyBuildkit.custom_node_from_depends p entries).custom_nodes
        = p.custom_nodes ++ entries.filterMap importedNode ∧
    (∀ e : String × NodeInfo, importedNode e =
        if e.2.state = some "installed" then some (e.1, normalizeRevision e.2.hash) else none) ∧
    (ComfyBuildkit.custom_node_from_depends initialKit exampleDepends).custom_nodes
        = [("https://x/a", "main")] := by
  refine ⟨c6_import_spec p entries, fun e => rfl, ?_⟩
  rw [c6_import_spec]
  rfl

/-- C9: with at least one download operation declared, the download section
opens with `RUN pip install huggingface_hub`, emitted strictly before every
`FROM ... AS download_<hash>` stage header; with none declared the section
has no instructions. -/
theorem c9_pip_before_stages (p : ComfyBuildkit) :
    (p.download_operations ≠ [] →
      downloadLines p =
          "RUN pip install huggingface_hub" :: p.download_operations.flatMap downloadBlock ∧
      (downloadLines p).head? = some "RUN pip install huggingface_hub" ∧
      (∀ i, "FROM system_stage AS download_".data.isPrefixOf
          ((downloadLines p).getD i "").data = true → 1 ≤ i)) ∧
    (p.download_operations = [] →
      downloadLines p = [] ∧ generate_download_dockerfile p = "\n") := by
  constructor
  · intro h
    have hne : p.download_operations.isEmpty = false := by
      simpa [List.isEmpty_iff] using h
    refine ⟨by simp [downloadLines, hne], by simp [downloadLines, hne], ?_⟩
    intro i hpre
    match i with
    | 0 =>
      rw [show (downloadLines p).getD 0 "" = "RUN pip install huggingface_hub" by
        simp [downloadLines, hne]] at hpre
      exact absurd hpre (by decide)
    | n + 1 => omega
  · intro h
    refine ⟨by simp [downloadLines, h], ?_⟩
    simp [generate_download_dockerfile, downloadLines, h, joinSep]

/-- C10: for every string `s`, the public builder call `cmd s` appends the
instruction `CMD ["s"]` with the whole string as a single unsplit element,
while the system stage's internal `CMD` word-splits its string into
separately quoted elements — as witnessed by the default launch command,
which ends the system stage split into four elements. -/
theorem c10_cmd_not_split (p : ComfyBuildkit) (s : String) :
    (ComfyBuildkit.cmd p s).user_stage = p.user_stage ++ ["CMD [\"" ++ s ++ "\"]"] ∧
    sysCmdLine "python /comfyui/main.py --listen 0.0.0.0" =
      "CMD [\"python\", \"/comfyui/main.py\", \"--listen\", \"0.0.0.0\"]" ∧
    (systemStageLines p).getLast? =
      some "CMD [\"python\", \"/comfyui/main.py\", \"--listen\", \"0.0.0.0\"]" := by
  refine ⟨rfl, rfl, ?_⟩
  simp only [systemStageLines, List.getLast?_concat]
  rfl

/-! ## Stage-name and copy-line lemmas -/

theorem hexChar_mem (n : Nat) : hexChar n ∈ "0123456789abcdef".data := by
  unfold hexChar
  have hl : "0123456789abcdef".data.length = 16 := rfl
  have hlen : n % 16 < "0123456789abcdef".data.length := by
    rw [hl]; exact Nat.mod_lt _ (by norm_num)
  rw [List.getD_eq_getElem?_getD, List.getElem?_eq_getElem hlen]
  exact List.getElem_mem hlen

theorem stageName_chars (op : DownloadOperation) :
    ∀ c ∈ (stageName op).data, (c != ' ') = true := by
  intro c hc
  have hdata : (stageName op).data = "download_".data ++ operationHash op := rfl
  rw [hdata] at hc
  rcases List.mem_append.1 hc with h | h
  · exact (by decide : ∀ x ∈ "download_".data, (x != ' ') = true) c h
  · have h2 : c ∈ md5HexChars (opDictStr op) := List.take_subset 8 _ h
    rcases List.mem_flatMap.1 h2 with ⟨b, _, hb⟩
    have hcases : c = hexChar (b / 16) ∨ c = hexChar (b % 16) := by
      simpa [byteHexChars] using hb
    have hspace : ∀ x ∈ "0123456789abcdef".data, (x != ' ') = true := by decide
    rcases hcases with rfl | rfl
    · exact hspace _ (hexChar_mem _)
    · exact hspace _ (hexChar_mem _)

theorem takeWhile_append_all {α : Type} (p : α → Bool) (l₁ : List α) (x : α) (l₂ : List α)
    (h : ∀ a ∈ l₁, p a = true) (hx : p x = false) :
    (l₁ ++ x :: l₂).takeWhile p = l₁ := by
  induction l₁ with
  | nil => simp [List.takeWhile_cons, hx]
  | cons a t ih =>
    simp only [List.cons_append, List.takeWhile_cons, h a (by simp)]
    simp only [if_true]
    rw [ih (fun b hb => h b (by simp [hb]))]

theorem extract_finalCopyLine (op : DownloadOperation) :
    extractFromTarget (finalCopyLine op) = some (stageName op) := by
  have hsp : (" " : String).data = [' '] := rfl
  have hd : (finalCopyLine op).data = "COPY --from=".data ++
      ((stageName op).data ++
        (' ' :: ((get_output_path op).data ++ ' ' :: (get_output_path op).data))) := by
    simp [finalCopyLine, str_data_append, hsp, List.append_assoc]
  unfold extractFromTarget
  rw [hd, if_pos (List.isPrefixOf_iff_prefix.2 (List.prefix_append _ _))]
  have h12 : ("COPY --from=".data).length = 12 := rfl
  rw [show (12 : Nat) = ("COPY --from=".data).length from h12.symm, List.drop_left]
  rw [takeWhile_append_all (fun c => c != ' ') (stageName op).data ' '
    ((get_output_path op).data ++ ' ' :: (get_output_path op).data)
    (stageName_chars op) (by decide)]

theorem targets_eq_stage_names (p : ComfyBuildkit) :
    finalCopyTargets p = downloadStageNames p := by
  unfold finalCopyTargets finalCopyLines downloadStageNames
  rw [List.filterMap_map]
  have h : extractFromTarget ∘ finalCopyLine = some ∘ stageName :=
    funext fun op => extract_finalCopyLine op
  rw [h, List.filterMap_eq_map]

/-- C1: two download operations with identical resolved fields, wherever
they sit in the plan, are assigned the same `download_<hash>` stage name,
and the final stage emits one `COPY --from` line per declared operation in
declaration order — duplicates included, not deduplicated. -/
theorem c1_identical_ops_share_stage (p : ComfyBuildkit) (i j : Nat)
    (hi : i < p.download_operations.length) (hj : j < p.download_operations.length)
    (h : p.download_operations[i] = p.download_operations[j]) :
    stageName p.download_operations[i] = stageName p.download_operations[j] ∧
    finalCopyLines p = p.download_operations.map finalCopyLine ∧
    (finalCopyLines p).getD i "" = (finalCopyLines p).getD j "" ∧
    finalStageText p = "FROM user_stage AS final_stage\n" ++
      String.join ((p.download_operations.map finalCopyLine).map (fun l => l ++ "\n")) := by
  have key : ∀ k : Nat, ∀ hk : k < p.download_operations.length,
      (finalCopyLines p).getD k "" = finalCopyLine p.download_operations[k] := by
    intro k hk
    rw [List.getD_eq_getElem?_getD, finalCopyLines,
      List.getElem?_eq_getElem (by simpa using hk)]
    simp [List.getElem_map]
  refine ⟨congrArg stageName h, rfl, ?_, rfl⟩
  rw [key i hi, key j hj, h]

/-- C1 instance: in `dupPlan`, the field-identical operations at positions
0 and 2 share a stage name and produce equal final-stage copy lines. -/
theorem c1_witness :
    stageName (dupPlan.download_operations.get ⟨0, by decide⟩) =
      stageName (dupPlan.download_operations.get ⟨2, by decide⟩) ∧
    (finalCopyLines dupPlan).getD 0 "" = (finalCopyLines dupPlan).getD 2 "" := by
  have h := c1_identical_ops_share_stage dupPlan 0 2 (by decide) (by decide) rfl
  exact ⟨h.1, h.2.2.1⟩

/-- C3: the descriptor concatenates the system, download, user and final
sections in that order; the stage names targeted by the final stage's
`COPY --from=` lines are exactly the download-stage names; and every
download stage opens with its `FROM system_stage AS download_<hash>`
header. -/
theorem c3_descriptor_structure (p : ComfyBuildkit) :
    (generate_dockerfile p).1 =
      (generate_base_dockerfile p).1 ++ "\n" ++ (generate_download_dockerfile p ++ "\n" ++
        (("FROM system_stage AS user_stage\n" ++ generate_user_dockerfile p) ++ "\n" ++
          finalStageText p)) ∧
    (∀ s, s ∈ finalCopyTargets p ↔ s ∈ downloadStageNames p) ∧
    (∀ b ∈ downloadBlocks p, ∃ op ∈ p.download_operations,
      b.head? = some ("FROM system_stage AS " ++ stageName op)) := by
  refine ⟨rfl, fun s => by rw [targets_eq_stage_names], ?_⟩
  intro b hb
  rcases List.mem_map.1 (by simpa [downloadBlocks] using hb) with ⟨op, hop, rfl⟩
  exact ⟨op, hop, rfl⟩

/-- C3 instance: in the one-download plan `urlPlan`, the target-set
equivalence holds at the operation's stage name and its block head is the
expected `FROM` header. -/
theorem c3_witness :
    (stageName exampleUrlOp ∈ finalCopyTargets urlPlan ↔
      stageName exampleUrlOp ∈ downloadStageNames urlPlan) ∧
    (∃ op ∈ urlPlan.download_operations,
      (downloadBlock exampleUrlOp).head? = some ("FROM system_stage AS " ++ stageName op)) := by
  refine ⟨(c3_descriptor_structure urlPlan).2.1 (stageName exampleUrlOp),
    (c3_descriptor_structure urlPlan).2.2 (downloadBlock exampleUrlOp) ?_⟩
  exact List.mem_map_of_mem downloadBlock (by simp [urlPlan])

/-- C9 instance: the one-download plan opens its download section with the
`huggingface_hub` install line, and the empty plan has no download lines. -/
theorem c9_witness :
    (downloadLines urlPlan).head? = some "RUN pip install huggingface_hub" ∧
    downloadLines initialKit = [] :=
  ⟨((c9_pip_before_stages urlPlan).1 (by decide)).2.1,
   ((c9_pip_before_stages initialKit).2 rfl).1⟩

/-! ## Path-absoluteness lemmas -/

theorem startsWithSlash_iff (s : String) :
    startsWithSlash s = true ↔ s.data.head? = some '/' := by
  simp [startsWithSlash]

theorem startsWithSlash_append (a b : String) (h : startsWithSlash a = true) :
    startsWithSlash (a ++ b) = true := by
  rw [startsWithSlash_iff] at h ⊢
  rw [str_data_append]
  cases ha : a.data with
  | nil => rw [ha] at h; simp at h
  | cons c t =>
    rw [ha] at h
    simp only [List.head?_cons, Option.some.injEq] at h
    simp [h]

theorem osPathJoin_abs (a b : String) (h : startsWithSlash a = true) :
    startsWithSlash (osPathJoin a b) = true := by
  unfold osPathJoin
  split
  · assumption
  · split
    · exact startsWithSlash_append a b h
    · exact startsWithSlash_append _ _ (startsWithSlash_append a "/" h)

theorem dropWhile_slash_ne_nil (l : List Char) (h : '/' ∈ l) :
    l.dropWhile (fun c => c != '/') ≠ [] := by
  induction l with
  | nil => simp at h
  | cons a t ih =>
    by_cases ha : a = '/'
    · subst ha; simp [List.dropWhile_cons]
    · have ht : '/' ∈ t := by
        rcases List.mem_cons.1 h with h1 | h1
        · exact absurd h1.symm ha
        · exact h1
      simpa [List.dropWhile_cons, ha] using ih ht

theorem prefix_head? {l₁ l₂ : List Char} (h : l₁ <+: l₂) (hne : l₁ ≠ []) :
    l₂.head? = l₁.head? := by
  rcases h with ⟨t, rfl⟩
  cases l₁ with
  | nil => exact absurd rfl hne
  | cons a s => simp

theorem rstripSlash_head (l : List Char) (h : ∃ c ∈ l, (c == '/') = false) :
    rstripSlash l ≠ [] ∧ (rstripSlash l).head? = l.head? := by
  induction l with
  | nil =>
    rcases h with ⟨c, hc, _⟩
    simp at hc
  | cons a t ih =>
    by_cases ha : a = '/'
    · subst ha
      have ht : ∃ c ∈ t, (c == '/') = false := by
        rcases h with ⟨c, hc, hcf⟩
        rcases List.mem_cons.1 hc with rfl | hct
        · simp at hcf
        · exact ⟨c, hct, hcf⟩
      obtain ⟨hne, _⟩ := ih ht
      simp only [rstripSlash]
      cases hr : rstripSlash t with
      | nil => exact absurd hr hne
      | cons b s => simp
    · simp only [rstripSlash]
      cases hr : rstripSlash t with
      | nil => simp [ha]
      | cons b s => simp

theorem dirname_abs (p : String) (h : startsWithSlash p = true) :
    startsWithSlash (osPathDirname p) = true := by
  rw [startsWithSlash_iff] at h
  have hmem : '/' ∈ p.data.reverse := by
    rw [List.mem_reverse]
    cases hp : p.data with
    | nil => rw [hp] at h; simp at h
    | cons c t =>
      rw [hp] at h
      simp only [List.head?_cons, Option.some.injEq] at h
      simp [h]
  have hne : p.data.reverse.dropWhile (fun c => c != '/') ≠ [] :=
    dropWhile_slash_ne_nil _ hmem
  have hne2 : (p.data.reverse.dropWhile (fun c => c != '/')).reverse ≠ [] := by
    simpa using hne
  have hpre : (p.data.reverse.dropWhile (fun c => c != '/')).reverse <+: p.data := by
    have h1 : p.data.reverse.dropWhile (fun c => c != '/') <:+ p.data.reverse :=
      List.dropWhile_suffix _
    have h2 := List.reverse_prefix.2 h1
    rwa [List.reverse_reverse] at h2
  have hhd : ((p.data.reverse.dropWhile (fun c => c != '/')).reverse).head? = some '/' := by
    rw [← prefix_head? hpre hne2, h]
  unfold osPathDirname
  by_cases hcond : (p.data.reverse.dropWhile (fun c => c != '/')).reverse ≠ [] ∧
      ¬ ((p.data.reverse.dropWhile (fun c => c != '/')).reverse).all (fun c => c == '/')
  · rw [if_pos hcond, startsWithSlash_iff]
    have hex : ∃ c ∈ (p.data.reverse.dropWhile (fun c => c != '/')).reverse,
        (c == '/') = false := by
      rcases hcond with ⟨_, hall⟩
      rw [List.all_eq_true] at hall
      push_neg at hall
      rcases hall with ⟨c, hc, hcf⟩
      exact ⟨c, hc, by simpa using hcf⟩
    obtain ⟨_, hh3⟩ := rstripSlash_head _ hex
    show (rstripSlash _).head? = some '/'
    rw [hh3, hhd]
  · rw [if_neg hcond, startsWithSlash_iff]
    exact hhd

/-- C4 counterexample: a marketplace-model download whose destination path
begins with `/` does not use that path verbatim — the resolved file name
replaces the final component. -/
theorem c4_counterexample :
    startsWithSlash "/models/x.bin" = true ∧
    get_output_path civitaiCounterOp = "/models/y.bin" ∧
    get_output_path civitaiCounterOp ≠ "/models/x.bin" := by
  refine ⟨by decide, rfl, by decide⟩

/-- C4 amended: the remote-file, remote-snapshot and direct-URL variants
use a destination beginning with `/` verbatim and qualify any other
destination under their default root; the marketplace-model variant applies
that policy to the directory part of its destination and appends the
resolved file name; and every variant's resolved output path is absolute. -/
theorem c4_amended_destination_policy :
    (∀ repo_id filename lp rev tok,
      (startsWithSlash lp = true →
        get_output_path (HFFileDownload repo_id filename lp rev tok) = lp) ∧
      (startsWithSlash lp = false →
        get_output_path (HFFileDownload repo_id filename lp rev tok) =
          osPathJoin "/comfyui/models" lp) ∧
      startsWithSlash (get_output_path (HFFileDownload repo_id filename lp rev tok)) = true) ∧
    (∀ repo_id ld rev ip tok,
      (startsWithSlash ld = true →
        get_output_path (HFSnapshotDownload repo_id ld rev ip tok) = ld) ∧
      (startsWithSlash ld = false →
        get_output_path (HFSnapshotDownload repo_id ld rev ip tok) =
          osPathJoin "/comfy/models" ld) ∧
      startsWithSlash (get_output_path (HFSnapshotDownload repo_id ld rev ip tok)) = true) ∧
    (∀ url lp,
      (startsWithSlash lp = true → get_output_path (URLDownload url lp) = lp) ∧
      (startsWithSlash lp = false →
        get_output_path (URLDownload url lp) = osPathJoin "/comfy/models" lp) ∧
      startsWithSlash (get_output_path (URLDownload url lp)) = true) ∧
    (∀ model_id lp tok mname fetched,
      (startsWithSlash lp = true →
        get_output_path (CivitaiDownload model_id lp tok mname fetched) =
          osPathJoin (osPathDirname lp) (civitaiResolvedName mname fetched)) ∧
      (startsWithSlash lp = false →
        get_output_path (CivitaiDownload model_id lp tok mname fetched) =
          osPathJoin (osPathJoin "/comfyui/models" (osPathDirname lp))
            (civitaiResolvedName mname fetched)) ∧
      startsWithSlash (get_output_path (CivitaiDownload model_id lp tok mname fetched)) = true) := by
  refine ⟨fun repo_id filename lp rev tok => ⟨fun h => by simp [HFFileDownload, get_output_path, h],
      fun h => by simp [HFFileDownload, get_output_path, h], ?_⟩,
    fun repo_id ld rev ip tok => ⟨fun h => by simp [HFSnapshotDownload, get_output_path, h],
      fun h => by simp [HFSnapshotDownload, get_output_path, h], ?_⟩,
    fun url lp => ⟨fun h => by simp [URLDownload, get_output_path, h],
      fun h => by simp [URLDownload, get_output_path, h], ?_⟩,
    fun model_id lp tok mname fetched =>
      ⟨fun h => by simp [CivitaiDownload, get_output_path, h],
       fun h => by simp [CivitaiDownload, get_output_path, h], ?_⟩⟩
  · by_cases h : startsWithSlash lp
    · simp [HFFileDownload, get_output_path, h]
    · simp only [Bool.not_eq_true] at h
      simp only [HFFileDownload, get_output_path, h, Bool.false_eq_true, if_false]
      exact osPathJoin_abs _ _ (by decide)
  · by_cases h : startsWithSlash ld
    · simp [HFSnapshotDownload, get_output_path, h]
    · simp only [Bool.not_eq_true] at h
      simp only [HFSnapshotDownload, get_output_path, h, Bool.false_eq_true, if_false]
      exact osPathJoin_abs _ _ (by decide)
  · by_cases h : startsWithSlash lp
    · simp [URLDownload, get_output_path, h]
    · simp only [Bool.not_eq_true] at h
      simp only [URLDownload, get_output_path, h, Bool.false_eq_true, if_false]
      exact osPathJoin_abs _ _ (by decide)
  · by_cases h : startsWithSlash lp
    · simp only [CivitaiDownload, get_output_path, h, if_true]
      exact osPathJoin_abs _ _ (dirname_abs lp h)
    · simp only [Bool.not_eq_true] at h
      simp only [CivitaiDownload, get_output_path, h, Bool.false_eq_true, if_false]
      exact osPathJoin_abs _ _ (osPathJoin_abs _ _ (by decide))

/-- C4 instances: a verbatim absolute remote-file destination, a qualified
relative direct-URL destination, and the marketplace-model directory rule,
each at concrete inputs. -/
theorem c4_witness :
    get_output_path (HFFileDownload "org/repo" "f.bin" "/abs/f.bin" none none) = "/abs/f.bin" ∧
    get_output_path (URLDownload "http://e/x" "rel/x.bin") =
      osPathJoin "/comfy/models" "rel/x.bin" ∧
    get_output_path (CivitaiDownload "9" "/m/x.bin" none (some "y.bin") "z") =
      osPathJoin (osPathDirname "/m/x.bin") (civitaiResolvedName (some "y.bin") "z") :=
  ⟨(c4_amended_destination_policy.1 "org/repo" "f.bin" "/abs/f.bin" none none).1 (by decide),
   (c4_amended_destination_policy.2.2.1 "http://e/x" "rel/x.bin").2.1 (by decide),
   (c4_amended_destination_policy.2.2.2 "9" "/m/x.bin" none (some "y.bin") "z").1 (by decide)⟩

/-! ## Copy-error and repo-name lemmas -/

/-- C7: a customization copy with fewer than one source plus one
destination raises before touching the plan; a copy whose first missing
source is absent from the build context raises a missing-source error
naming it; and whenever copy raises, no descriptor text is produced, so
nothing is persisted (errors return no updated plan, leaving the user
instruction list unchanged). -/
theorem c7_copy_failure_modes (fs : List String) (p : ComfyBuildkit) (args : List String) :
    (args.length < 2 → ComfyBuildkit.copy fs p args = .error .tooFewArgs) ∧
    (2 ≤ args.length → (∃ s ∈ args.dropLast, fs.contains s = false) →
      ∃ s ∈ args.dropLast, fs.contains s = false ∧
        ComfyBuildkit.copy fs p args = .error (.missingSource s)) ∧
    (∀ e, ComfyBuildkit.copy fs p args = .error e → copy_then_save fs p args = none) := by
  refine ⟨fun h => by simp [ComfyBuildkit.copy, h], ?_, ?_⟩
  · intro hlen hex
    obtain ⟨s, hs, hmiss⟩ := hex
    have hsome : (args.dropLast.find? (fun x => ! fs.contains x)).isSome = true :=
      List.find?_isSome.2 ⟨s, hs, by rw [Bool.not_eq_true']; exact hmiss⟩
    obtain ⟨t, ht⟩ := Option.isSome_iff_exists.1 hsome
    refine ⟨t, List.mem_of_find?_eq_some ht, ?_, ?_⟩
    · have hp := List.find?_some ht
      simpa using hp
    · simp only [ComfyBuildkit.copy]
      rw [if_neg (by omega), ht]
  · intro e he
    simp [copy_then_save, he]

/-- C7 instances: a one-argument copy is rejected, a missing local source
raises naming it, and the save pipeline then writes nothing. -/
theorem c7_witness :
    ComfyBuildkit.copy exampleFs initialKit ["just-one"] = .error .tooFewArgs ∧
    (∃ s ∈ (["missing.txt", "/dst"] : List String).dropLast, exampleFs.contains s = false ∧
      ComfyBuildkit.copy exampleFs initialKit ["missing.txt", "/dst"] =
        .error (.missingSource s)) ∧
    copy_then_save exampleFs initialKit ["missing.txt", "/dst"] = none :=
  ⟨(c7_copy_failure_modes exampleFs initialKit ["just-one"]).1 (by decide),
   (c7_copy_failure_modes exampleFs initialKit ["missing.txt", "/dst"]).2.1 (by decide)
     ⟨"missing.txt", by decide, by decide⟩,
   (c7_copy_failure_modes exampleFs initialKit ["missing.txt", "/dst"]).2.2
     (CopyError.missingSource "missing.txt") rfl⟩

theorem git_no_straddle (l : List Char)
    (h : containsSub ".git".data l = false) (hne : l ≠ []) :
    ".git".data.isPrefixOf (l ++ ".git".data) = false := by
  rcases l with _ | ⟨a, _ | ⟨b, _ | ⟨c, _ | ⟨d, t⟩⟩⟩⟩
  · exact absurd rfl hne
  · simp [List.isPrefixOf]
  · simp [List.isPrefixOf]
  · simp [List.isPrefixOf]
  · by_contra hcon
    rw [Bool.not_eq_false] at hcon
    simp only [List.cons_append, List.isPrefixOf, Bool.and_eq_true, beq_iff_eq] at hcon
    obtain ⟨h1, h2, h3, h4, _⟩ := hcon
    subst h1; subst h2; subst h3; subst h4
    simp [containsSub, List.isPrefixOf] at h

theorem replaceAll_of_not_contains (pat rep : List Char) (fuel : Nat) :
    ∀ l : List Char, l.length ≤ fuel → containsSub pat l = false →
      replaceAllAux pat rep fuel l = l := by
  induction fuel with
  | zero => intro l _ _; rfl
  | succ n ih =>
    intro l hl hc
    cases l with
    | nil => rfl
    | cons a t =>
      simp only [containsSub, Bool.or_eq_false_iff] at hc
      simp only [replaceAllAux]
      rw [if_neg (by simp [hc.1])]
      rw [ih t (by simp at hl; omega) hc.2]

theorem replaceAll_strip_trailing (fuel : Nat) :
    ∀ l : List Char, (l ++ ".git".data).length ≤ fuel → containsSub ".git".data l = false →
      replaceAllAux ".git".data [] fuel (l ++ ".git".data) = l := by
  induction fuel with
  | zero =>
    intro l hl _
    simp [List.length_append] at hl
  | succ n ih =>
    intro l hl hc
    cases l with
    | nil =>
      simp only [List.nil_append, replaceAllAux]
      rw [if_pos (by decide)]
      show replaceAllAux ".git".data [] n [] = []
      cases n <;> rfl
    | cons a t =>
      have hne : (a :: t) ≠ [] := by simp
      have hpre := git_no_straddle (a :: t) hc hne
      have hcond : ".git".data.isPrefixOf (a :: (t ++ ".git".data)) = false := by
        rw [← List.cons_append]; exact hpre
      simp only [containsSub, Bool.or_eq_false_iff] at hc
      simp only [List.cons_append, replaceAllAux]
      rw [if_neg (by simp [hcond])]
      exact congrArg (fun x => a :: x)
        (ih t (by simp [List.length_append] at hl ⊢; omega) hc.2)

/-- C8 counterexample: for a locator whose final segment contains `.git`
in the middle, the code removes that interior occurrence too, so the
payload's `repo_name` differs from the claim's strip-one-trailing-suffix
reading. -/
theorem c8_counterexample :
    node_install_data [("https://x/a.github.io", "main")] =
      [{ url := "https://x/a.github.io", hash := "main", repo_name := "ahub.io" }] ∧
    repoNameOf "https://x/a.github.io" ≠
      stripTrailingGit (lastSegment "https://x/a.github.io") ∧
    stripTrailingGit (lastSegment "https://x/a.github.io") = "a.github.io" := by
  refine ⟨rfl, by decide, rfl⟩

/-- C8 amended: each add-on `(url, revision)` is serialized as
`{url, hash: revision, repo_name: r}` where `r` is the final path segment
of `url` with every occurrence of the substring `.git` removed — a segment
without `.git` is unchanged, and a segment whose only occurrence is a
trailing suffix has exactly that suffix stripped. -/
theorem c8_amended_repo_name (nodes : List (String × String)) :
    node_install_data nodes = nodes.map (fun e => ⟨e.1, e.2, repoNameOf e.1⟩) ∧
    (∀ url rev, node_install_data [(url, rev)] =
      [⟨url, rev, pyReplace (lastSegment url) ".git" ""⟩]) ∧
    (∀ s : String, containsSub ".git".data s.data = false → pyReplace s ".git" "" = s) ∧
    (∀ s : String, containsSub ".git".data s.data = false →
      pyReplace (s ++ ".git") ".git" "" = s) := by
  refine ⟨rfl, fun url rev => rfl, ?_, ?_⟩
  · intro s hc
    apply str_ext
    show replaceAllAux ".git".data [] s.data.length s.data = s.data
    exact replaceAll_of_not_contains ".git".data [] s.data.length s.data le_rfl hc
  · intro s hc
    apply str_ext
    show replaceAllAux ".git".data [] (s ++ ".git").data.length (s.data ++ ".git".data) = s.data
    rw [show (s ++ ".git").data.length = (s.data ++ ".git".data).length from rfl]
    exact replaceAll_strip_trailing _ s.data le_rfl hc

/-- C8 instances: the no-occurrence and trailing-suffix cases of the repo
name derivation, and the payload record for a clean `.git` locator. -/
theorem c8_witness :
    node_install_data [("https://x/Repo.git", "main")] =
      [{ url := "https://x/Repo.git", hash := "main",
         repo_name := pyReplace (lastSegment "https://x/Repo.git") ".git" "" }] ∧
    pyReplace "Repo" ".git" "" = "Repo" ∧
    pyReplace ("Repo" ++ ".git") ".git" "" = "Repo" :=
  ⟨(c8_amended_repo_name []).2.1 "https://x/Repo.git" "main",
   (c8_amended_repo_name []).2.2.1 "Repo" (by decide),
   (c8_amended_repo_name []).2.2.2 "Repo" (by decide)⟩
